import Mathlib

/-!
# Verification of the Secret-Santa assignment generator

Shallow embedding of the core of `tirage-app-backend` (file `src/unnamed/part_000`):
the functions `shuffle` and `generateAssignments`, together with the data they
operate on.

Randomness model: the JavaScript source draws randomness only through the
comparator `() => Math.random() - 0.5` passed to `Array.prototype.sort`.  Only
the sign of each draw matters to the sort, and each sign is an independent fair
coin.  We therefore model the randomness source as a stream `Nat → Bool` of
comparator outcomes (`true` = the comparator returned a negative value, i.e.
"keep the probed order"), consumed left to right; the second component of the
sort's result is the index of the next unused coin, so that `final - initial`
counts comparator invocations.  `Array.prototype.sort` on a small array is
modelled as insertion sort driven by that comparator (the concrete algorithm is
engine-defined; any comparison sort yields, for the properties proved here, the
same conclusions: the output is a permutation of the input, both orders of two
elements are reachable, a constant-sign stream reproduces one fixed order, and
the outcome distribution over fair comparator coins is dyadic, hence non-uniform).
-/

/-- The `User` record of the source (`type User = { id; name; excludedUserIds; ready }`). -/
structure User where
  id : String
  name : String
  excludedUserIds : List String
  ready : Bool
deriving DecidableEq, Repr

/-- The two error conditions of the generator: the source throws
`"Not enough users"` (InsufficientParticipants) and
`"Impossible to generate valid assignments"` (GenerationFailed). -/
inductive GenErr where
  | InsufficientParticipants
  | GenerationFailed
deriving DecidableEq, Repr

/-- A stream of comparator coin flips: `coins k` is the sign of the `k`-th
call to the random comparator (`true` = negative, keep order). -/
abbrev Coins := Nat → Bool

/-- Insert `x` into `l`, each comparison consuming one coin starting at
position `pos`; returns the new list and the next unused coin position.
`coins pos = true` means the comparator put `x` before the probed element. -/
def rcInsert (coins : Coins) (x : String) : List String → Nat → List String × Nat
  | [], pos => ([x], pos)
  | y :: ys, pos =>
    if coins pos then (x :: y :: ys, pos + 1)
    else
      let r := rcInsert coins x ys (pos + 1)
      (y :: r.1, r.2)

/-- Model of `shuffle`: `[...array].sort(() => Math.random() - 0.5)`, i.e. a
copy of the array sorted with the random comparator, as comparator-driven
insertion sort over the coin stream. -/
def rcSort (coins : Coins) : List String → Nat → List String × Nat
  | [], pos => ([], pos)
  | x :: xs, pos =>
    let r := rcSort coins xs pos
    rcInsert coins x r.1 r.2

/-- The validation loop body of `generateAssignments`: pair `users[i]` with
`shuffledIds[i]` and reject as soon as `!assignedId` (the id is missing or the
empty string, which is falsy), `assignedId === user.id`, or
`user.excludedUserIds.includes(assignedId)`.  Short-circuits on the first
violation, exactly as the `for` loop with `break` does. -/
def validateAll : List User → List String → Bool
  | [], _ => true
  | _ :: _, [] => false
  | u :: us, a :: rest =>
    if (a == "") || (a == u.id) || u.excludedUserIds.contains a then false
    else validateAll us rest

/-- `Map.set` of JavaScript on an association list kept in insertion order:
overwrite in place when the key is present, append otherwise. -/
def jsMapSet (m : List (String × String)) (k v : String) : List (String × String) :=
  if m.any (fun e => e.1 == k) then
    m.map (fun e => if e.1 == k then (k, v) else e)
  else m ++ [(k, v)]

/-- The result-building loop of `generateAssignments`:
`for i: result.set(users[i].id, shuffledIds[i]!)` on a fresh `Map`. -/
def buildResult (users : List User) (shuffled : List String) : List (String × String) :=
  (users.zip shuffled).foldl (fun m q => jsMapSet m q.1.id q.2) []

/-- `Map.get` of JavaScript on the association-list model. -/
def mapGet (m : List (String × String)) (k : String) : Option String :=
  (m.find? (fun e => e.1 == k)).map (fun e => e.2)

/-- State at exit of the retry loop: the last `shuffledIds`, the value of
`attempts`, and the next unused coin position. -/
structure LoopRes where
  shuffled : List String
  attempts : Nat
  pos : Nat
deriving DecidableEq, Repr

/-- The retry loop `while (attempts < 1000) { attempts++; shuffledIds = shuffle(userIds);
... if (valid) break; }`, with `fuel = 1000 - attempts` as the recursion measure.
On a valid attempt it exits with the current counter; on fuel exhaustion the
counter has reached the budget. -/
def loopGo (users : List User) (userIds : List String) (coins : Coins) :
    Nat → Nat → Nat → List String → LoopRes
  | 0, attempts, pos, s => ⟨s, attempts, pos⟩
  | fuel + 1, attempts, pos, _ =>
    let r := rcSort coins userIds pos
    if validateAll users r.1 then ⟨r.1, attempts + 1, r.2⟩
    else loopGo users userIds coins fuel (attempts + 1) r.2 r.1

/-- The core `generateAssignments(users)` of the source, with the randomness
source made explicit.  Mirrors: the `users.length < 2` guard, the retry loop
with budget 1000, the post-loop `if (attempts >= 1000) throw`, and the
result-map construction. -/
def generateAssignments (users : List User) (coins : Coins) :
    Except GenErr (List (String × String)) :=
  if users.length < 2 then .error .InsufficientParticipants
  else
    let userIds := users.map (fun u => u.id)
    let r := loopGo users userIds coins 1000 0 0 []
    if 1000 ≤ r.attempts then .error .GenerationFailed
    else .ok (buildResult users r.shuffled)

/-- Resource instrumentation of the same run: number of attempts performed and
total comparator invocations (coin flips) consumed.  `(0, 0)` when the
precondition check rejects the call before any generation work. -/
def generateAssignmentsStats (users : List User) (coins : Coins) : Nat × Nat :=
  if users.length < 2 then (0, 0)
  else
    let r := loopGo users (users.map (fun u => u.id)) coins 1000 0 0 []
    (r.attempts, r.pos)

/-- All 8 sign prefixes of three comparator draws.  Each has probability 1/8
under the fair-coin comparator model (each draw of `Math.random() - 0.5` is
negative with probability 1/2, independently). -/
def coinTriples : List (List Bool) :=
  [[true, true, true], [true, true, false], [true, false, true], [true, false, false],
   [false, true, true], [false, true, false], [false, false, true], [false, false, false]]

/-- The shuffle outcome on a three-element list for each coin prefix.  Sorting
three elements consumes at most three coins, so the prefix determines the
outcome, and the outcome distribution over the 8 equally likely prefixes is the
shuffle's output distribution. -/
def shuffleOutcomes3 : List (List String) :=
  coinTriples.map (fun l => (rcSort (fun k => l.getD k true) ["a", "b", "c"] 0).1)

/-! ## Basic lemmas about the comparator-driven sort -/

/-- The insertion step returns a permutation of `x :: l`. -/
theorem rcInsert_perm (coins : Coins) (x : String) :
    ∀ (l : List String) (pos : Nat), ((rcInsert coins x l pos).1).Perm (x :: l) := by
  intro l
  induction l with
  | nil => intro pos; simp [rcInsert]
  | cons y ys ih =>
    intro pos
    cases h : coins pos with
    | true => simp [rcInsert, h]
    | false =>
      simp only [rcInsert, h, Bool.false_eq_true, if_false]
      exact ((ih (pos + 1)).cons y).trans (List.Perm.swap x y ys)

/-- The sort returns a permutation of its input: `Array.prototype.sort`
rearranges the elements of the copied array, whatever the comparator does. -/
theorem rcSort_perm (coins : Coins) :
    ∀ (l : List String) (pos : Nat), ((rcSort coins l pos).1).Perm l := by
  intro l
  induction l with
  | nil => intro pos; simp [rcSort]
  | cons x xs ih =>
    intro pos
    exact (rcInsert_perm coins x _ _).trans ((ih pos).cons x)

/-- The sort preserves length. -/
theorem rcSort_length (coins : Coins) (l : List String) (pos : Nat) :
    ((rcSort coins l pos).1).length = l.length :=
  (rcSort_perm coins l pos).length_eq

/-- Inserting into a list of length `n` consumes at most `n` coins
(when the list is nonempty, at least one). -/
theorem rcInsert_pos_le (coins : Coins) (x : String) :
    ∀ (l : List String) (pos : Nat), (rcInsert coins x l pos).2 ≤ pos + l.length := by
  intro l
  induction l with
  | nil => intro pos; simp [rcInsert]
  | cons y ys ih =>
    intro pos
    cases h : coins pos with
    | true => simp [rcInsert, h]
    | false =>
      simp only [rcInsert, h, Bool.false_eq_true, if_false]
      have := ih (pos + 1)
      simp only [List.length_cons]
      omega

/-- Sorting a list of length `n` consumes at most `n * n` coins. -/
theorem rcSort_pos_le (coins : Coins) :
    ∀ (l : List String) (pos : Nat), (rcSort coins l pos).2 ≤ pos + l.length * l.length := by
  intro l
  induction l with
  | nil => intro pos; simp [rcSort]
  | cons x xs ih =>
    intro pos
    have h1 := ih pos
    have h2 := rcInsert_pos_le coins x (rcSort coins xs pos).1 (rcSort coins xs pos).2
    have h3 : ((rcSort coins xs pos).1).length = xs.length := rcSort_length coins xs pos
    simp only [rcSort, List.length_cons]
    rw [h3] at h2
    nlinarith

/-! ## Lemmas about the retry loop -/

/-- Unfolding: out of fuel. -/
theorem loopGo_zero (users : List User) (ids : List String) (coins : Coins)
    (a p : Nat) (s : List String) : loopGo users ids coins 0 a p s = ⟨s, a, p⟩ := rfl

/-- Unfolding: one more unit of fuel. -/
theorem loopGo_succ (users : List User) (ids : List String) (coins : Coins)
    (fuel a p : Nat) (s : List String) :
    loopGo users ids coins (fuel + 1) a p s =
      if validateAll users (rcSort coins ids p).1 then
        ⟨(rcSort coins ids p).1, a + 1, (rcSort coins ids p).2⟩
      else loopGo users ids coins fuel (a + 1) (rcSort coins ids p).2 (rcSort coins ids p).1 := rfl

/-- The loop performs at most `fuel` further attempts. -/
theorem loopGo_attempts_le (users : List User) (ids : List String) (coins : Coins) :
    ∀ (fuel a p : Nat) (s : List String),
      (loopGo users ids coins fuel a p s).attempts ≤ a + fuel := by
  intro fuel
  induction fuel with
  | zero => intro a p s; simp [loopGo_zero]
  | succ n ih =>
    intro a p s
    rw [loopGo_succ]
    cases h : validateAll users (rcSort coins ids p).1 with
    | true => simp [h]
    | false =>
      simp only [h, Bool.false_eq_true, if_false]
      have := ih (a + 1) (rcSort coins ids p).2 (rcSort coins ids p).1
      omega

/-- The loop consumes at most `fuel * ids.length²` coins beyond `p`. -/
theorem loopGo_pos_le (users : List User) (ids : List String) (coins : Coins) :
    ∀ (fuel a p : Nat) (s : List String),
      (loopGo users ids coins fuel a p s).pos ≤ p + fuel * (ids.length * ids.length) := by
  intro fuel
  induction fuel with
  | zero => intro a p s; simp [loopGo_zero]
  | succ n ih =>
    intro a p s
    rw [loopGo_succ]
    have hs := rcSort_pos_le coins ids p
    cases h : validateAll users (rcSort coins ids p).1 with
    | true =>
      simp only [h, if_true]
      nlinarith
    | false =>
      simp only [h, Bool.false_eq_true, if_false]
      have := ih (a + 1) (rcSort coins ids p).2 (rcSort coins ids p).1
      nlinarith

/-- If the loop exits with fewer attempts than the ceiling `a + fuel`, the exit
was through a validated attempt: the final `shuffledIds` passed validation and
is the output of one of the shuffles. -/
theorem loopGo_valid_of_lt (users : List User) (ids : List String) (coins : Coins) :
    ∀ (fuel a p : Nat) (s : List String),
      (loopGo users ids coins fuel a p s).attempts < a + fuel →
      validateAll users (loopGo users ids coins fuel a p s).shuffled = true ∧
        ∃ q, (loopGo users ids coins fuel a p s).shuffled = (rcSort coins ids q).1 := by
  intro fuel
  induction fuel with
  | zero => intro a p s h; simp [loopGo_zero] at h
  | succ n ih =>
    intro a p s h
    rw [loopGo_succ] at h ⊢
    cases hv : validateAll users (rcSort coins ids p).1 with
    | true =>
      refine ⟨?_, p, ?_⟩ <;> simp [hv]
    | false =>
      simp only [hv, Bool.false_eq_true, if_false] at h ⊢
      exact ih (a + 1) (rcSort coins ids p).2 (rcSort coins ids p).1 (by omega)

/-- If every possible shuffle fails validation, the loop exhausts its fuel. -/
theorem loopGo_allfail (users : List User) (ids : List String) (coins : Coins)
    (hf : ∀ q, validateAll users (rcSort coins ids q).1 = false) :
    ∀ (fuel a p : Nat) (s : List String),
      (loopGo users ids coins fuel a p s).attempts = a + fuel := by
  intro fuel
  induction fuel with
  | zero => intro a p s; simp [loopGo_zero]
  | succ n ih =>
    intro a p s
    rw [loopGo_succ]
    simp only [hf p, Bool.false_eq_true, if_false]
    rw [ih (a + 1) (rcSort coins ids p).2 (rcSort coins ids p).1]
    omega

/-- If moreover every shuffle consumes exactly `c` coins, an exhausted loop
consumes exactly `fuel * c` coins. -/
theorem loopGo_allfail_pos (users : List User) (ids : List String) (coins : Coins) (c : Nat)
    (hf : ∀ q, validateAll users (rcSort coins ids q).1 = false)
    (hc : ∀ q, (rcSort coins ids q).2 = q + c) :
    ∀ (fuel a p : Nat) (s : List String),
      (loopGo users ids coins fuel a p s).pos = p + fuel * c := by
  intro fuel
  induction fuel with
  | zero => intro a p s; simp [loopGo_zero]
  | succ n ih =>
    intro a p s
    rw [loopGo_succ]
    simp only [hf p, Bool.false_eq_true, if_false]
    rw [ih (a + 1) (rcSort coins ids p).2 (rcSort coins ids p).1, hc p]
    ring

/-- With fuel remaining, the loop ignores the incoming `shuffledIds` buffer. -/
theorem loopGo_s_irrel (users : List User) (ids : List String) (coins : Coins)
    (fuel a p : Nat) (s1 s2 : List String) (h : 0 < fuel) :
    loopGo users ids coins fuel a p s1 = loopGo users ids coins fuel a p s2 := by
  cases fuel with
  | zero => omega
  | succ n => rw [loopGo_succ, loopGo_succ]

/-- Skipping `k` consecutive failed attempts, when each shuffle consumes
exactly one coin (the two-participant case). -/
theorem loopGo_skip (users : List User) (ids : List String) (coins : Coins)
    (hc : ∀ q, (rcSort coins ids q).2 = q + 1) :
    ∀ (k fuel a p : Nat) (s : List String), 0 < fuel →
      (∀ j, j < k → validateAll users (rcSort coins ids (p + j)).1 = false) →
      loopGo users ids coins (fuel + k) a p s = loopGo users ids coins fuel (a + k) (p + k) s := by
  intro k
  induction k with
  | zero => intro fuel a p s _ _; rfl
  | succ n ih =>
    intro fuel a p s hfuel hfail
    have heq : fuel + (n + 1) = (fuel + n) + 1 := by omega
    rw [heq, loopGo_succ]
    have h0 : validateAll users (rcSort coins ids p).1 = false := by
      have := hfail 0 (by omega)
      simpa using this
    simp only [h0, Bool.false_eq_true, if_false]
    rw [hc p]
    have hfail2 : ∀ j, j < n → validateAll users (rcSort coins ids ((p + 1) + j)).1 = false := by
      intro j hj
      have := hfail (j + 1) (by omega)
      have harr : p + (j + 1) = (p + 1) + j := by omega
      rwa [harr] at this
    rw [loopGo_s_irrel users ids coins (fuel + n) (a + 1) (p + 1)
      (rcSort coins ids p).1 s (by omega)]
    rw [ih fuel (a + 1) (p + 1) s hfuel hfail2]
    have ha : a + 1 + n = a + (n + 1) := by omega
    have hp : p + 1 + n = p + (n + 1) := by omega
    rw [ha, hp]

/-! ## Lemmas about validation and result construction -/

/-- A pairing that validates covers every participant: the shuffled list is at
least as long as the user list (otherwise `!assignedId` fires). -/
theorem validateAll_length :
    ∀ (users : List User) (ss : List String),
      validateAll users ss = true → users.length ≤ ss.length := by
  intro users
  induction users with
  | nil => intro ss _; simp
  | cons u us ih =>
    intro ss h
    cases ss with
    | nil => simp [validateAll] at h
    | cons a rest =>
      simp only [validateAll] at h
      cases hc : ((a == "") || (a == u.id) || u.excludedUserIds.contains a) with
      | true => rw [hc] at h; simp at h
      | false =>
        rw [hc] at h
        simp only [Bool.false_eq_true, if_false] at h
        have := ih rest h
        simp only [List.length_cons]
        omega

/-- If the shuffled list contains the empty identifier (and is no longer than
the user list), validation rejects the pairing: the `!assignedId` test treats
the empty string as missing. -/
theorem validateAll_empty_id :
    ∀ (users : List User) (ss : List String),
      ss.length ≤ users.length → "" ∈ ss → validateAll users ss = false := by
  intro users
  induction users with
  | nil =>
    intro ss hl hm
    cases ss with
    | nil => simp at hm
    | cons a rest => simp at hl
  | cons u us ih =>
    intro ss hl hm
    cases ss with
    | nil => simp at hm
    | cons a rest =>
      simp only [validateAll]
      cases hc : ((a == "") || (a == u.id) || u.excludedUserIds.contains a) with
      | true => simp
      | false =>
        simp only [Bool.false_eq_true, if_false]
        have ha : ¬(a = "") := by
          intro he
          simp only [Bool.or_eq_false_iff] at hc
          have := hc.1.1
          rw [he] at this
          simp at this
        have hrest : "" ∈ rest := by
          rcases List.mem_cons.mp hm with h1 | h1
          · exact absurd h1.symm ha
          · exact h1
        exact ih rest (by simpa using Nat.le_of_succ_le_succ (by simpa using hl)) hrest

/-- `Map.set` with a key not yet present appends the binding. -/
theorem jsMapSet_fresh (m : List (String × String)) (k v : String)
    (h : (m.any fun e => e.1 == k) = false) : jsMapSet m k v = m ++ [(k, v)] := by
  simp only [jsMapSet, h, Bool.false_eq_true, if_false]

/-- Folding `Map.set` over pairs whose keys are fresh and mutually distinct
appends the corresponding bindings in order. -/
theorem buildGo_append :
    ∀ (ps : List (User × String)) (acc : List (String × String)),
      ((acc.map fun e => e.1) ++ ps.map fun q => q.1.id).Nodup →
      ps.foldl (fun m q => jsMapSet m q.1.id q.2) acc = acc ++ ps.map fun q => (q.1.id, q.2) := by
  intro ps
  induction ps with
  | nil => intro acc _; simp
  | cons q ps ih =>
    intro acc hnd
    simp only [List.map_cons] at hnd
    have hdis : q.1.id ∉ acc.map fun e => e.1 := by
      intro hmem
      exact (List.nodup_append.mp hnd).2.2 hmem (List.mem_cons_self _ _)
    have hfresh : (acc.any fun e => e.1 == q.1.id) = false := by
      rw [List.any_eq_false]
      intro e he
      simp only [beq_iff_eq]
      intro heq
      exact hdis (heq ▸ List.mem_map_of_mem _ he)
    simp only [List.foldl_cons]
    rw [jsMapSet_fresh _ _ _ hfresh]
    have hnd2 : (((acc ++ [(q.1.id, q.2)]).map fun e => e.1) ++ ps.map fun r => r.1.id).Nodup := by
      simp only [List.map_append, List.map_cons, List.map_nil]
      rw [List.append_assoc]
      simpa using hnd
    rw [ih _ hnd2]
    simp

/-- Projecting the giver ids out of the zipped pairs. -/
theorem zip_map_pair :
    ∀ (us : List User) (ss : List String),
      (us.zip ss).map (fun q => (q.1.id, q.2)) = (us.map fun u => u.id).zip ss := by
  intro us
  induction us with
  | nil => intro ss; simp
  | cons u us ih =>
    intro ss
    cases ss with
    | nil => simp
    | cons a rest => simp [ih]

/-- The giver ids appearing in the zipped pairs form a sublist of all ids. -/
theorem zip_ids_sublist :
    ∀ (us : List User) (ss : List String),
      ((us.zip ss).map fun q => q.1.id).Sublist (us.map fun u => u.id) := by
  intro us
  induction us with
  | nil => intro ss; simp
  | cons u us ih =>
    intro ss
    cases ss with
    | nil => simp
    | cons a rest =>
      simp only [List.zip_cons_cons, List.map_cons]
      exact (ih rest).cons₂ u.id

/-- With distinct ids, the result map is exactly the id list zipped with the
shuffled list: all `Map.set` calls hit fresh keys. -/
theorem buildResult_eq_zip (users : List User) (ss : List String)
    (h : (users.map fun u => u.id).Nodup) :
    buildResult users ss = (users.map fun u => u.id).zip ss := by
  unfold buildResult
  rw [buildGo_append]
  · simp [zip_map_pair]
  · simp only [List.map_nil, List.nil_append]
    exact List.Nodup.sublist (zip_ids_sublist users ss) h

/-- Characterization of a successful generation: the input had at least two
participants, and the returned map was built from a shuffled list that passed
validation and is a permutation of the participant ids. -/
theorem gen_ok_spec (users : List User) (coins : Coins) (m : List (String × String))
    (h : generateAssignments users coins = .ok m) :
    2 ≤ users.length ∧ ∃ ss, validateAll users ss = true ∧
      ss.Perm (users.map fun u => u.id) ∧ m = buildResult users ss := by
  simp only [generateAssignments] at h
  by_cases hlen : users.length < 2
  · rw [if_pos hlen] at h; exact absurd h (by simp)
  · rw [if_neg hlen] at h
    by_cases hatt : 1000 ≤ (loopGo users (users.map fun u => u.id) coins 1000 0 0 []).attempts
    · rw [if_pos hatt] at h; exact absurd h (by simp)
    · rw [if_neg hatt] at h
      have hlt : (loopGo users (users.map fun u => u.id) coins 1000 0 0 []).attempts < 0 + 1000 := by
        omega
      obtain ⟨hval, q, hq⟩ :=
        loopGo_valid_of_lt users (users.map fun u => u.id) coins 1000 0 0 [] hlt
      refine ⟨by omega, (loopGo users (users.map fun u => u.id) coins 1000 0 0 []).shuffled,
        hval, ?_, ?_⟩
      · rw [hq]; exact rcSort_perm coins _ q
      · exact (Except.ok.inj h).symm

/-- Looking a giver up in the zipped map after successful validation: the
recipient is neither the giver itself nor one of its excluded ids. -/
theorem mapGet_zip_valid :
    ∀ (users : List User) (ss : List String),
      (users.map fun u => u.id).Nodup → validateAll users ss = true →
      ∀ u, u ∈ users → ∀ r, mapGet ((users.map fun x => x.id).zip ss) u.id = some r →
        r ≠ u.id ∧ u.excludedUserIds.contains r = false := by
  intro users
  induction users with
  | nil => intro ss _ _ u hu; simp at hu
  | cons u0 us ih =>
    intro ss hnd hv u hu r hr
    cases ss with
    | nil => simp [validateAll] at hv
    | cons a rest =>
      simp only [validateAll] at hv
      cases hc : ((a == "") || (a == u0.id) || u0.excludedUserIds.contains a) with
      | true => rw [hc] at hv; simp at hv
      | false =>
        rw [hc] at hv
        simp only [Bool.false_eq_true, if_false] at hv
        simp only [Bool.or_eq_false_iff] at hc
        obtain ⟨⟨hblank, hself⟩, hexc⟩ := hc
        simp only [List.map_cons] at hnd
        have hnd2 := List.nodup_cons.mp hnd
        rcases List.mem_cons.mp hu with rfl | hu2
        · have hfind : mapGet ((u.id :: us.map fun x => x.id).zip (a :: rest)) u.id = some a := by
            simp [mapGet, List.zip_cons_cons, List.find?_cons_of_pos]
          simp only [List.map_cons] at hr
          rw [hfind] at hr
          have hra : r = a := (Option.some.inj hr).symm
          subst hra
          refine ⟨?_, hexc⟩
          simpa using hself
        · have hne0 : (u0.id == u.id) = false := by
            simp only [beq_eq_false_iff_ne, ne_eq]
            intro he
            exact hnd2.1 (he ▸ List.mem_map_of_mem _ hu2)
          simp only [List.map_cons, List.zip_cons_cons, mapGet] at hr
          rw [List.find?_cons_of_neg] at hr
          · exact ih rest hnd2.2 hv u hu2 r hr
          · simp [hne0]

/-! ## Small permutation enumeration lemmas -/

/-- A permutation of a two-element list is one of the two arrangements. -/
theorem perm_pair {α : Type} {x y a b : α} (h : ([x, y] : List α).Perm [a, b]) :
    (x = a ∧ y = b) ∨ (x = b ∧ y = a) := by
  have hx : x ∈ ([a, b] : List α) := h.mem_iff.mp (List.mem_cons_self x [y])
  rcases List.mem_cons.mp hx with rfl | hx2
  · left
    refine ⟨rfl, ?_⟩
    have h2 : ([y] : List α).Perm [b] := (List.perm_cons x).mp h
    simpa using List.perm_singleton.mp h2
  · have hxb : x = b := by simpa using hx2
    subst hxb
    right
    refine ⟨rfl, ?_⟩
    have hs : ([a, x] : List α).Perm [x, a] := List.Perm.swap x a []
    have h2 : ([y] : List α).Perm [a] := (List.perm_cons x).mp (h.trans hs)
    simpa using List.perm_singleton.mp h2

/-- A permutation of a three-element list is one of the six arrangements. -/
theorem perm_triple {α : Type} {x y z a b c : α} (h : ([x, y, z] : List α).Perm [a, b, c]) :
    (x = a ∧ y = b ∧ z = c) ∨ (x = a ∧ y = c ∧ z = b) ∨
    (x = b ∧ y = a ∧ z = c) ∨ (x = b ∧ y = c ∧ z = a) ∨
    (x = c ∧ y = a ∧ z = b) ∨ (x = c ∧ y = b ∧ z = a) := by
  have hx : x ∈ ([a, b, c] : List α) := h.mem_iff.mp (List.mem_cons_self x [y, z])
  rcases List.mem_cons.mp hx with rfl | hx2
  · have h2 : ([y, z] : List α).Perm [b, c] := (List.perm_cons x).mp h
    rcases perm_pair h2 with ⟨rfl, rfl⟩ | ⟨rfl, rfl⟩
    · exact Or.inl ⟨rfl, rfl, rfl⟩
    · exact Or.inr (Or.inl ⟨rfl, rfl, rfl⟩)
  rcases List.mem_cons.mp hx2 with rfl | hx3
  · have hs : ([a, x, c] : List α).Perm [x, a, c] := List.Perm.swap x a [c]
    have h2 : ([y, z] : List α).Perm [a, c] := (List.perm_cons x).mp (h.trans hs)
    rcases perm_pair h2 with ⟨rfl, rfl⟩ | ⟨rfl, rfl⟩
    · exact Or.inr (Or.inr (Or.inl ⟨rfl, rfl, rfl⟩))
    · exact Or.inr (Or.inr (Or.inr (Or.inl ⟨rfl, rfl, rfl⟩)))
  · have hxc : x = c := by simpa using hx3
    subst hxc
    have hs1 : ([a, b, x] : List α).Perm [a, x, b] := (List.Perm.swap x b []).cons a
    have hs2 : ([a, x, b] : List α).Perm [x, a, b] := List.Perm.swap x a [b]
    have h2 : ([y, z] : List α).Perm [a, b] := (List.perm_cons x).mp (h.trans (hs1.trans hs2))
    rcases perm_pair h2 with ⟨rfl, rfl⟩ | ⟨rfl, rfl⟩
    · exact Or.inr (Or.inr (Or.inr (Or.inr (Or.inl ⟨rfl, rfl, rfl⟩))))
    · exact Or.inr (Or.inr (Or.inr (Or.inr (Or.inr ⟨rfl, rfl, rfl⟩))))

/-- If some position pairs a participant with its own id, validation fails. -/
theorem validateAll_fix :
    ∀ (users : List User) (ss : List String) (i : Nat) (hu : i < users.length)
      (hs : i < ss.length), ss.get ⟨i, hs⟩ = (users.get ⟨i, hu⟩).id →
      validateAll users ss = false := by
  intro users
  induction users with
  | nil => intro ss i hu; simp at hu
  | cons u us ih =>
    intro ss i hu hs heq
    cases ss with
    | nil => simp at hs
    | cons a rest =>
      cases i with
      | zero =>
        simp only [List.get] at heq
        simp [validateAll, heq]
      | succ j =>
        simp only [List.get] at heq
        simp only [validateAll]
        cases hc : ((a == "") || (a == u.id) || u.excludedUserIds.contains a) with
        | true => simp
        | false =>
          simp only [Bool.false_eq_true, if_false]
          exact ih rest j (by simpa using hu) (by simpa using hs) heq

/-! ## Claim theorems -/

/-- C2 counterexample: the shuffle is NOT uniform.  Over the 8 equally likely
three-coin comparator sign prefixes, the identity arrangement `["a","b","c"]`
is produced by 2 of them (probability 1/4) while `["b","a","c"]` is produced by
only 1 (probability 1/8); a uniform shuffle would give every permutation the
same probability.  This refutes the claim that the step-2a shuffle is a
Fisher-Yates-quality uniform shuffle: it is the naive random-comparator sort. -/
theorem C2_counterexample :
    shuffleOutcomes3.count ["a", "b", "c"] = 2 ∧
    shuffleOutcomes3.count ["b", "a", "c"] = 1 ∧
    shuffleOutcomes3.count ["a", "b", "c"] ≠ shuffleOutcomes3.count ["b", "a", "c"] := by
  decide

/-- C2 amended: the shuffle is the naive random-comparator sort
(`[...array].sort(() => Math.random() - 0.5)`), and its outcome distribution is
biased: over the 8 equally likely comparator sign prefixes for 3 elements, the
six permutations are produced with probabilities 2/8, 2/8, 1/8, 1/8, 1/8, 1/8
rather than 1/6 each. -/
theorem C2_comparator_sort_biased :
    shuffleOutcomes3.length = 8 ∧
    shuffleOutcomes3.count ["a", "b", "c"] = 2 ∧
    shuffleOutcomes3.count ["a", "c", "b"] = 2 ∧
    shuffleOutcomes3.count ["b", "a", "c"] = 1 ∧
    shuffleOutcomes3.count ["b", "c", "a"] = 1 ∧
    shuffleOutcomes3.count ["c", "a", "b"] = 1 ∧
    shuffleOutcomes3.count ["c", "b", "a"] = 1 := by
  decide

/-- C3: every assignment returned by the generator maps no giver to itself and
no giver to a recipient in that giver's exclusion set; the self-assignment ban
is checked internally (`assignedId === user.id`), independently of whether the
caller put the participant's own id into `excludedUserIds`. -/
theorem C3_no_self_no_excluded (users : List User) (coins : Coins)
    (m : List (String × String)) (u : User) (r : String)
    (hnd : (users.map fun x => x.id).Nodup)
    (h : generateAssignments users coins = .ok m)
    (hu : u ∈ users) (hr : mapGet m u.id = some r) :
    r ≠ u.id ∧ u.excludedUserIds.contains r = false := by
  obtain ⟨_, ss, hval, hperm, hm⟩ := gen_ok_spec users coins m h
  subst hm
  rw [buildResult_eq_zip users ss hnd] at hr
  exact mapGet_zip_valid users ss hnd hval u hu r hr

/-- C3 witness: a concrete successful draw with two participants, evaluated;
the recipient of `"a"` is `"b"`, which is neither `"a"` nor excluded. -/
theorem C3_witness :
    (([⟨"a", "A", [], false⟩, ⟨"b", "B", [], false⟩] : List User).map fun x => x.id).Nodup ∧
    generateAssignments [⟨"a", "A", [], false⟩, ⟨"b", "B", [], false⟩] (fun _ => false) =
      .ok [("a", "b"), ("b", "a")] ∧
    (⟨"a", "A", [], false⟩ : User) ∈ ([⟨"a", "A", [], false⟩, ⟨"b", "B", [], false⟩] : List User) ∧
    mapGet [("a", "b"), ("b", "a")] (User.mk "a" "A" [] false).id = some "b" ∧
    ("b" ≠ (User.mk "a" "A" [] false).id ∧
      (User.mk "a" "A" [] false).excludedUserIds.contains "b" = false) :=
  ⟨by decide, by rfl, by decide, by rfl,
    C3_no_self_no_excluded [⟨"a", "A", [], false⟩, ⟨"b", "B", [], false⟩] (fun _ => false)
      [("a", "b"), ("b", "a")] ⟨"a", "A", [], false⟩ "b"
      (by decide) (by rfl) (by decide) (by rfl)⟩

/-- C4: with distinct participant ids, a returned assignment is total and
bijective: its givers are exactly the participant ids, each exactly once and in
order, and its recipients are a permutation of the participant ids. -/
theorem C4_total_bijective (users : List User) (coins : Coins)
    (m : List (String × String))
    (hnd : (users.map fun x => x.id).Nodup)
    (h : generateAssignments users coins = .ok m) :
    m.map Prod.fst = users.map (fun x => x.id) ∧
    (m.map Prod.snd).Perm (users.map fun x => x.id) := by
  obtain ⟨_, ss, hval, hperm, hm⟩ := gen_ok_spec users coins m h
  subst hm
  rw [buildResult_eq_zip users ss hnd]
  have hlen : (users.map fun x => x.id).length = ss.length := by
    rw [hperm.length_eq]
  constructor
  · exact List.map_fst_zip _ _ (le_of_eq hlen)
  · rw [List.map_snd_zip _ _ (le_of_eq hlen.symm)]
    exact hperm

/-- C4 witness: the same concrete draw; givers are `["a", "b"]` and recipients
`["b", "a"]`, a permutation of the participant ids. -/
theorem C4_witness :
    (([⟨"a", "A", [], false⟩, ⟨"b", "B", [], false⟩] : List User).map fun x => x.id).Nodup ∧
    generateAssignments [⟨"a", "A", [], false⟩, ⟨"b", "B", [], false⟩] (fun _ => false) =
      .ok [("a", "b"), ("b", "a")] ∧
    (([("a", "b"), ("b", "a")] : List (String × String)).map Prod.fst =
      ([⟨"a", "A", [], false⟩, ⟨"b", "B", [], false⟩] : List User).map (fun x => x.id) ∧
    (([("a", "b"), ("b", "a")] : List (String × String)).map Prod.snd).Perm
      (([⟨"a", "A", [], false⟩, ⟨"b", "B", [], false⟩] : List User).map fun x => x.id)) :=
  ⟨by decide, by rfl,
    C4_total_bijective [⟨"a", "A", [], false⟩, ⟨"b", "B", [], false⟩] (fun _ => false)
      [("a", "b"), ("b", "a")] (by decide) (by rfl)⟩

/-- C5: with fewer than 2 participants the generator reports
`InsufficientParticipants` immediately: no attempt is made and no randomness is
consumed (0 attempts, 0 comparator calls), for every randomness stream. -/
theorem C5_insufficient (users : List User) (coins : Coins) (h : users.length < 2) :
    generateAssignments users coins = .error .InsufficientParticipants ∧
    generateAssignmentsStats users coins = (0, 0) := by
  constructor
  · simp only [generateAssignments]
    rw [if_pos h]
  · simp only [generateAssignmentsStats]
    rw [if_pos h]

/-- C5 witness: the empty participant list. -/
theorem C5_witness :
    (([] : List User).length < 2) ∧
    generateAssignments [] (fun _ => true) = .error .InsufficientParticipants ∧
    generateAssignmentsStats [] (fun _ => true) = (0, 0) :=
  ⟨by decide, (C5_insufficient [] (fun _ => true) (by decide)).1,
    (C5_insufficient [] (fun _ => true) (by decide)).2⟩

/-- C8: the generator is deterministic modulo its randomness source: two calls
with equal participant lists and equal coin streams return equal results. -/
theorem C8_deterministic (users1 users2 : List User) (coins1 coins2 : Coins)
    (hu : users1 = users2) (hc : coins1 = coins2) :
    generateAssignments users1 coins1 = generateAssignments users2 coins2 := by
  rw [hu, hc]

/-- C8 witness: two identical concrete calls agree. -/
theorem C8_witness :
    ([⟨"a", "A", [], false⟩] : List User) = [⟨"a", "A", [], false⟩] ∧
    generateAssignments [⟨"a", "A", [], false⟩] (fun _ => true) =
      generateAssignments [⟨"a", "A", [], false⟩] (fun _ => true) :=
  ⟨rfl, C8_deterministic [⟨"a", "A", [], false⟩] [⟨"a", "A", [], false⟩]
    (fun _ => true) (fun _ => true) rfl rfl⟩

/-- A first-position violation makes validation fail. -/
theorem validateAll_cons_false (u : User) (us : List User) (a : String) (rest : List String)
    (h : ((a == "") || (a == u.id) || u.excludedUserIds.contains a) = true) :
    validateAll (u :: us) (a :: rest) = false := by
  simp only [validateAll, h, if_true]

/-- C6: with exactly two participants where the first excludes the second, the
generator fails with `GenerationFailed` for every randomness stream: both
orders of the two ids are rejected (identity as self-assignment, swap as an
excluded pair), so all 1000 attempts fail. -/
theorem C6_infeasible_pair (u1 u2 : User) (coins : Coins)
    (hex : u1.excludedUserIds.contains u2.id = true) :
    generateAssignments [u1, u2] coins = .error .GenerationFailed := by
  have hsort : ∀ q, rcSort coins [u1.id, u2.id] q =
      (if coins q then [u1.id, u2.id] else [u2.id, u1.id], q + 1) := by
    intro q
    cases h : coins q <;> simp [rcSort, rcInsert, h]
  have hfail : ∀ q, validateAll [u1, u2] (rcSort coins [u1.id, u2.id] q).1 = false := by
    intro q
    rw [hsort q]
    cases h : coins q with
    | true =>
      simp only [h, if_true]
      exact validateAll_cons_false u1 [u2] u1.id [u2.id] (by simp)
    | false =>
      simp only [h, Bool.false_eq_true, if_false]
      have hmem : u2.id ∈ u1.excludedUserIds := by simpa using hex
      exact validateAll_cons_false u1 [u2] u2.id [u1.id] (by simp [hmem])
  have hall : (loopGo [u1, u2] [u1.id, u2.id] coins 1000 0 0 []).attempts = 0 + 1000 :=
    loopGo_allfail [u1, u2] [u1.id, u2.id] coins hfail 1000 0 0 []
  have hcond : 1000 ≤ (loopGo [u1, u2] [u1.id, u2.id] coins 1000 0 0 []).attempts := by
    rw [hall]
  simp only [generateAssignments, List.map_cons, List.map_nil]
  rw [if_neg (by simp), if_pos hcond]

/-- C6 witness: participant `"a"` excludes `"b"`; the draw fails. -/
theorem C6_witness :
    (User.mk "a" "A" ["b"] false).excludedUserIds.contains (User.mk "b" "B" [] false).id = true ∧
    generateAssignments [⟨"a", "A", ["b"], false⟩, ⟨"b", "B", [], false⟩] (fun _ => true) =
      .error .GenerationFailed :=
  ⟨by decide, C6_infeasible_pair ⟨"a", "A", ["b"], false⟩ ⟨"b", "B", [], false⟩
    (fun _ => true) (by decide)⟩

/-- C10: if any participant id is the empty string (a falsy value) and there
are at least two participants, every shuffle places the empty id at some
recipient slot, the `!assignedId` test rejects the attempt, and the generator
returns `GenerationFailed` for every randomness stream. -/
theorem C10_empty_id (users : List User) (coins : Coins)
    (hlen : 2 ≤ users.length) (hmem : "" ∈ users.map fun u => u.id) :
    generateAssignments users coins = .error .GenerationFailed := by
  have hfail : ∀ q, validateAll users (rcSort coins (users.map fun u => u.id) q).1 = false := by
    intro q
    apply validateAll_empty_id
    · simp [rcSort_length]
    · exact ((rcSort_perm coins (users.map fun u => u.id) q).mem_iff).mpr hmem
  have hall : (loopGo users (users.map fun u => u.id) coins 1000 0 0 []).attempts = 0 + 1000 :=
    loopGo_allfail users (users.map fun u => u.id) coins hfail 1000 0 0 []
  have hcond : 1000 ≤ (loopGo users (users.map fun u => u.id) coins 1000 0 0 []).attempts := by
    rw [hall]
  simp only [generateAssignments]
  rw [if_neg (by omega), if_pos hcond]

/-- C10 witness: two participants, one with the empty id; the draw fails. -/
theorem C10_witness :
    2 ≤ ([⟨"", "E", [], false⟩, ⟨"b", "B", [], false⟩] : List User).length ∧
    "" ∈ ([⟨"", "E", [], false⟩, ⟨"b", "B", [], false⟩] : List User).map (fun u => u.id) ∧
    generateAssignments [⟨"", "E", [], false⟩, ⟨"b", "B", [], false⟩] (fun _ => false) =
      .error .GenerationFailed :=
  ⟨by decide, by decide,
    C10_empty_id [⟨"", "E", [], false⟩, ⟨"b", "B", [], false⟩] (fun _ => false)
      (by decide) (by decide)⟩

/-- C1 (bug exhibit): a randomness stream whose first 999 comparator draws keep
the order (each attempt shuffles two ids to the invalid identity) and whose
1000th draw swaps them.  The 1000th attempt's pairing passes validation, the
loop performs exactly 1000 attempts, yet the post-loop `attempts >= 1000` check
still throws `GenerationFailed`: a validated 1000th attempt is rejected. -/
theorem C1_thousandth_attempt_rejected :
    validateAll [⟨"a", "A", [], false⟩, ⟨"b", "B", [], false⟩]
      (rcSort (fun k => decide (k < 999)) ["a", "b"] 999).1 = true ∧
    generateAssignmentsStats [⟨"a", "A", [], false⟩, ⟨"b", "B", [], false⟩]
      (fun k => decide (k < 999)) = (1000, 1000) ∧
    generateAssignments [⟨"a", "A", [], false⟩, ⟨"b", "B", [], false⟩]
      (fun k => decide (k < 999)) = .error .GenerationFailed := by
  have hsort : ∀ q, rcSort (fun k => decide (k < 999)) ["a", "b"] q =
      (if decide (q < 999) then ["a", "b"] else ["b", "a"], q + 1) := by
    intro q
    cases h : decide (q < 999) <;> simp [rcSort, rcInsert, h]
  have hc1 : ∀ q, (rcSort (fun k => decide (k < 999)) ["a", "b"] q).2 = q + 1 := by
    intro q
    rw [hsort q]
  have hfail : ∀ j, j < 999 →
      validateAll [⟨"a", "A", [], false⟩, ⟨"b", "B", [], false⟩]
        (rcSort (fun k => decide (k < 999)) ["a", "b"] (0 + j)).1 = false := by
    intro j hj
    rw [hsort]
    have hd : decide ((0 + j) < 999) = true := by
      simp
      omega
    rw [hd]
    simp only [if_true]
    exact validateAll_cons_false _ _ _ _ (by simp)
  have hskip := loopGo_skip [⟨"a", "A", [], false⟩, ⟨"b", "B", [], false⟩] ["a", "b"]
    (fun k => decide (k < 999)) hc1 999 1 0 0 [] (by omega) hfail
  norm_num at hskip
  have hlast : loopGo [⟨"a", "A", [], false⟩, ⟨"b", "B", [], false⟩] ["a", "b"]
      (fun k => decide (k < 999)) 1 999 999 [] = ⟨["b", "a"], 1000, 1000⟩ := by
    rfl
  refine ⟨by decide, ?_, ?_⟩
  · simp only [generateAssignmentsStats, List.map_cons, List.map_nil]
    rw [if_neg (by simp), hskip, hlast]
  · simp only [generateAssignments, List.map_cons, List.map_nil]
    rw [if_neg (by simp), hskip, hlast]
    simp

/-- C9 counterexample: four participants, the first excluding the id that the
all-negative comparator stream places first.  Every attempt reverses the list
(6 comparator calls, the insertion-sort worst case for 4 elements) and fails
validation, so the run performs 1000 attempts and 6000 comparator calls —
more than the claimed retry-budget × N = 4000 bound on total work. -/
theorem C9_counterexample :
    generateAssignmentsStats [⟨"a", "A", ["d"], false⟩, ⟨"b", "B", [], false⟩,
      ⟨"c", "C", [], false⟩, ⟨"d", "D", [], false⟩] (fun _ => false) = (1000, 6000) ∧
    1000 * ([⟨"a", "A", ["d"], false⟩, ⟨"b", "B", [], false⟩,
      ⟨"c", "C", [], false⟩, ⟨"d", "D", [], false⟩] : List User).length < 6000 := by
  have hsort : ∀ q, rcSort (fun _ => false) ["a", "b", "c", "d"] q =
      (["d", "c", "b", "a"], q + 6) := by
    intro q
    simp [rcSort, rcInsert]
  have hfail : ∀ q, validateAll [⟨"a", "A", ["d"], false⟩, ⟨"b", "B", [], false⟩,
      ⟨"c", "C", [], false⟩, ⟨"d", "D", [], false⟩]
      (rcSort (fun _ => false) ["a", "b", "c", "d"] q).1 = false := by
    intro q
    rw [hsort q]
    exact validateAll_cons_false _ _ _ _ (by decide)
  have hatt := loopGo_allfail [⟨"a", "A", ["d"], false⟩, ⟨"b", "B", [], false⟩,
    ⟨"c", "C", [], false⟩, ⟨"d", "D", [], false⟩] ["a", "b", "c", "d"]
    (fun _ => false) hfail 1000 0 0 []
  have hpos := loopGo_allfail_pos [⟨"a", "A", ["d"], false⟩, ⟨"b", "B", [], false⟩,
    ⟨"c", "C", [], false⟩, ⟨"d", "D", [], false⟩] ["a", "b", "c", "d"]
    (fun _ => false) 6 hfail (fun q => by rw [hsort q]) 1000 0 0 []
  refine ⟨?_, by decide⟩
  simp only [generateAssignmentsStats, List.map_cons, List.map_nil]
  rw [if_neg (by simp)]
  rw [hatt, hpos]

/-- C9 amended: the generator always terminates after at most 1000 attempts,
and its total comparator-call count is bounded by 1000 × N² (the shuffle is a
comparison sort, so an attempt is not linear in N; the claimed 1000 × N bound
fails, see the counterexample). -/
theorem C9_attempts_and_work_bound (users : List User) (coins : Coins) :
    (generateAssignmentsStats users coins).1 ≤ 1000 ∧
    (generateAssignmentsStats users coins).2 ≤ 1000 * (users.length * users.length) := by
  simp only [generateAssignmentsStats]
  by_cases h : users.length < 2
  · rw [if_pos h]
    simp
  · rw [if_neg h]
    constructor
    · have := loopGo_attempts_le users (users.map fun u => u.id) coins 1000 0 0 []
      simpa using this
    · have := loopGo_pos_le users (users.map fun u => u.id) coins 1000 0 0 []
      simp only [List.length_map] at this
      simpa using this

/-- C7 counterexample: three participants with no exclusions, but a randomness
stream whose comparator draws are all negative.  Every attempt shuffles the ids
to the identity arrangement, which fails validation as a self-assignment, so
the generator returns `GenerationFailed` — "3 participants with no exclusions
beyond self" does NOT succeed for every randomness sequence. -/
theorem C7_counterexample :
    generateAssignments [⟨"a", "A", [], false⟩, ⟨"b", "B", [], false⟩, ⟨"c", "C", [], false⟩]
      (fun _ => true) = .error .GenerationFailed := by
  have hsort : ∀ q, rcSort (fun _ => true) ["a", "b", "c"] q = (["a", "b", "c"], q + 2) := by
    intro q
    simp [rcSort, rcInsert]
  have hfail : ∀ q, validateAll [⟨"a", "A", [], false⟩, ⟨"b", "B", [], false⟩,
      ⟨"c", "C", [], false⟩] (rcSort (fun _ => true) ["a", "b", "c"] q).1 = false := by
    intro q
    rw [hsort q]
    exact validateAll_cons_false _ _ _ _ (by decide)
  have hall : (loopGo [⟨"a", "A", [], false⟩, ⟨"b", "B", [], false⟩, ⟨"c", "C", [], false⟩]
      ["a", "b", "c"] (fun _ => true) 1000 0 0 []).attempts = 0 + 1000 :=
    loopGo_allfail _ _ _ hfail 1000 0 0 []
  have hcond : 1000 ≤ (loopGo [⟨"a", "A", [], false⟩, ⟨"b", "B", [], false⟩,
      ⟨"c", "C", [], false⟩] ["a", "b", "c"] (fun _ => true) 1000 0 0 []).attempts := by
    rw [hall]
  simp only [generateAssignments, List.map_cons, List.map_nil]
  rw [if_neg (by simp), if_pos hcond]

/-- C7 amended: for three participants with distinct ids and no exclusions
beyond themselves, a returned assignment is necessarily one of the two 3-cycles
(the only derangements of three elements); success itself is not guaranteed for
every randomness sequence (see the counterexample). -/
theorem C7_three_cycle (ua ub uc : User) (coins : Coins) (m : List (String × String))
    (hab : ua.id ≠ ub.id) (hac : ua.id ≠ uc.id) (hbc : ub.id ≠ uc.id)
    (_hea : ∀ x ∈ ua.excludedUserIds, x = ua.id)
    (_heb : ∀ x ∈ ub.excludedUserIds, x = ub.id)
    (_hec : ∀ x ∈ uc.excludedUserIds, x = uc.id)
    (h : generateAssignments [ua, ub, uc] coins = .ok m) :
    m = [(ua.id, ub.id), (ub.id, uc.id), (uc.id, ua.id)] ∨
    m = [(ua.id, uc.id), (ub.id, ua.id), (uc.id, ub.id)] := by
  have hnd : (([ua, ub, uc] : List User).map fun x => x.id).Nodup := by
    simp [hab, hac, hbc]
  obtain ⟨_, ss, hval, hperm, hm⟩ := gen_ok_spec [ua, ub, uc] coins m h
  subst hm
  rw [buildResult_eq_zip _ _ hnd]
  simp only [List.map_cons, List.map_nil] at hperm ⊢
  have hlen : ss.length = 3 := by
    rw [hperm.length_eq]
    rfl
  cases ss with
  | nil => simp at hlen
  | cons s0 t0 =>
    cases t0 with
    | nil => simp at hlen
    | cons s1 t1 =>
      cases t1 with
      | nil => simp at hlen
      | cons s2 t2 =>
        cases t2 with
        | cons s3 t3 => simp at hlen
        | nil =>
          rcases perm_triple hperm with hc1 | hc2 | hc3 | hc4 | hc5 | hc6
          · obtain ⟨rfl, rfl, rfl⟩ := hc1
            rw [validateAll_fix [ua, ub, uc] [ua.id, ub.id, uc.id] 0
              (by norm_num) (by norm_num) rfl] at hval
            simp at hval
          · obtain ⟨rfl, rfl, rfl⟩ := hc2
            rw [validateAll_fix [ua, ub, uc] [ua.id, uc.id, ub.id] 0
              (by norm_num) (by norm_num) rfl] at hval
            simp at hval
          · obtain ⟨rfl, rfl, rfl⟩ := hc3
            rw [validateAll_fix [ua, ub, uc] [ub.id, ua.id, uc.id] 2
              (by norm_num) (by norm_num) rfl] at hval
            simp at hval
          · obtain ⟨rfl, rfl, rfl⟩ := hc4
            exact Or.inl rfl
          · obtain ⟨rfl, rfl, rfl⟩ := hc5
            exact Or.inr rfl
          · obtain ⟨rfl, rfl, rfl⟩ := hc6
            rw [validateAll_fix [ua, ub, uc] [uc.id, ub.id, ua.id] 1
              (by norm_num) (by norm_num) rfl] at hval
            simp at hval

/-- C7 witness: a concrete successful three-participant draw; the returned
assignment is the 3-cycle a → b → c → a. -/
theorem C7_witness :
    (User.mk "a" "A" [] false).id ≠ (User.mk "b" "B" [] false).id ∧
    (User.mk "a" "A" [] false).id ≠ (User.mk "c" "C" [] false).id ∧
    (User.mk "b" "B" [] false).id ≠ (User.mk "c" "C" [] false).id ∧
    generateAssignments [⟨"a", "A", [], false⟩, ⟨"b", "B", [], false⟩, ⟨"c", "C", [], false⟩]
      (fun k => decide (k = 0)) = .ok [("a", "b"), ("b", "c"), ("c", "a")] ∧
    (([("a", "b"), ("b", "c"), ("c", "a")] : List (String × String)) =
        [("a", "b"), ("b", "c"), ("c", "a")] ∨
      ([("a", "b"), ("b", "c"), ("c", "a")] : List (String × String)) =
        [("a", "c"), ("b", "a"), ("c", "b")]) :=
  ⟨by decide, by decide, by decide, by rfl,
    C7_three_cycle ⟨"a", "A", [], false⟩ ⟨"b", "B", [], false⟩ ⟨"c", "C", [], false⟩
      (fun k => decide (k = 0)) [("a", "b"), ("b", "c"), ("c", "a")]
      (by decide) (by decide) (by decide) (by decide) (by decide) (by decide) (by rfl)⟩
